import Mathlib

/-!
Verification of the c19map data-import pipeline (src/import.py) against its
natural-language specification.  The pipeline's pure reconciliation logic is
shallowly embedded below: Python dicts keyed by (country, province, district)
triples become association lists over `PlaceKey`, the `TimeSeries` helper class
(util/time_series, described by spec section 4.1) is modelled as a start day
plus a dense list of integer values, and calendar dates are modelled as day
numbers (days since an arbitrary epoch), which preserves all date arithmetic
the pipeline performs (subtracting one day, converting a date to an array
position).
-/

namespace C19

/-- A place key (country, province/state, district/county), the identity of a
place across all data sources.  Mirrors the Python tuples used as dict keys in
src/import.py. -/
abbrev PlaceKey := String × String × String

/-- Modelled from the spec: section 4.1 TimeSeries (the util/time_series module
is not part of the sources) — an immutable start date plus a dense sequence of
values, values[i] corresponding to day start + i.  Dates are day numbers. -/
structure TimeSeries where
  start : Nat
  values : List Int
deriving DecidableEq, Repr

/-- Modelled from the spec: `date_to_position` of section 4.1 — zero-based
offset of a date from the start; `none` models `OutOfRangeError` when the date
precedes the start or exceeds the series length. -/
def TimeSeries.date_to_position (ts : TimeSeries) (d : Nat) : Option Nat :=
  if ts.start ≤ d ∧ d - ts.start < ts.values.length then some (d - ts.start) else none

/-- Modelled from the spec: date-addressed read of section 4.1 (resolve the
date to a position, then read the array); `none` models `OutOfRangeError`. -/
def TimeSeries.get (ts : TimeSeries) (d : Nat) : Option Int :=
  (ts.date_to_position d).map (fun i => ts.values.getD i 0)

/-- Modelled from the spec: date-addressed write of section 4.1; `none` models
`OutOfRangeError`. -/
def TimeSeries.set (ts : TimeSeries) (d : Nat) (v : Int) : Option TimeSeries :=
  (ts.date_to_position d).map (fun i => { ts with values := ts.values.set i v })

/-- Element-wise sum of two value arrays (the defined case of the element-wise
add of spec section 4.1; the driver only adds series of identical shape). -/
def zipAdd (a b : List Int) : List Int := List.zipWith (· + ·) a b

/-- Modelled from the spec: section 3 Place record (the util/place module is
not part of the sources) — population, coordinates, intervention history and
the three count series.  Latitude/longitude come out of CSV cells, hence
strings. -/
structure Place where
  key : Option PlaceKey := none
  population : Option Int := none
  latitude : Option String := none
  longitude : Option String := none
  interventions : List String := []
  confirmed : TimeSeries := ⟨0, []⟩
  deaths : TimeSeries := ⟨0, []⟩
  recovered : TimeSeries := ⟨0, []⟩
deriving DecidableEq, Repr

/-- Modelled from the spec: `Place(dates)` — a fresh place whose three count
series are zero-initialized over the full date range (`n` days starting at
day `s`). -/
def newPlace (s n : Nat) : Place :=
  { confirmed := ⟨s, List.replicate n 0⟩
    deaths := ⟨s, List.replicate n 0⟩
    recovered := ⟨s, List.replicate n 0⟩ }

/-- The `places` dict of src/import.py, as an association list with unique
keys (Python dict keys are unique). -/
abbrev Places := List (PlaceKey × Place)

/-- Dict lookup: value at a key, `none` when absent. -/
def lookupP : Places → PlaceKey → Option Place
  | [], _ => none
  | (k', pl) :: rest, k => if k' = k then some pl else lookupP rest k

/-- Dict assignment `places[k] = pl`: replace the entry if the key is present,
otherwise append it. -/
def insertP : Places → PlaceKey → Place → Places
  | [], k, pl => [(k, pl)]
  | (k', pl') :: rest, k, pl =>
      if k' = k then (k, pl) :: rest else (k', pl') :: insertP rest k pl

/-- Dict deletion `del places[k]`: remove the entry with the key (the first
one; keys are unique). -/
def eraseP : Places → PlaceKey → Places
  | [], _ => []
  | (k', pl') :: rest, k => if k' = k then rest else (k', pl') :: eraseP rest k

/-- The key set of the dict, in insertion order. -/
def keysP (m : Places) : List PlaceKey := m.map (·.1)

/-- Lexicographic comparison of character lists by code point — Python's
string ordering. -/
def lexLt : List Char → List Char → Bool
  | [], [] => false
  | [], _ :: _ => true
  | _ :: _, [] => false
  | a :: as, b :: bs =>
      if a.toNat < b.toNat then true
      else if a.toNat = b.toNat then lexLt as bs else false

/-- Python's `<` on strings: code-point lexicographic order. -/
def strLt (a b : String) : Bool := lexLt a.data b.data

/-- Python's `<=` order on (country, province, district) string triples
(lexicographic tuple comparison), as a Boolean relation for sorting. -/
def keyLe (a b : PlaceKey) : Bool :=
  strLt a.1 b.1 ||
    (decide (a.1 = b.1) &&
      (strLt a.2.1 b.2.1 ||
        (decide (a.2.1 = b.2.1) && (strLt a.2.2 b.2.2 || decide (a.2.2 = b.2.2)))))

/-- `sorted(places.keys())`.  A stable sort by a total preorder: Python's
`sorted` (also stable) produces the same list. -/
def sortKeys (m : Places) : List PlaceKey :=
  (keysP m).insertionSort (fun a b => keyLe a b = true)

-- --------------------------------------------------------------------------
-- fetch_intervention_data (src/import.py lines 114-127): building one
-- intervention row from its date columns.

/-- One step of the per-row loop of `fetch_intervention_data`: the
accumulator is (list built so far, prev_state); the input is one
(column-header, cell-value) pair.  Faithful to the source, which tests the
column header `s` — not the cell — against the empty string. -/
def interventionFold (acc : List String × String) (col : String × String) :
    List String × String :=
  if col.1 = "" then (acc.1 ++ [acc.2], acc.2)
  else (acc.1 ++ [col.2], col.2)

/-- The intervention list built by `fetch_intervention_data` for one row:
fold over the date columns (header, cell) with `prev_state` starting at
"No Intervention". -/
def intervention_list (row : List (String × String)) : List String :=
  (row.foldl interventionFold ([], "No Intervention")).1

/-- When every date-column header is a nonempty string (which is always the
case, since the headers were successfully parsed as dates), the loop copies
every cell verbatim and the carry-forward branch is dead. -/
theorem intervention_list_copies_cells (row : List (String × String))
    (h : ∀ c ∈ row, c.1 ≠ "") : intervention_list row = row.map (·.2) := by
  have main : ∀ (r : List (String × String)) (acc : List String × String),
      (∀ c ∈ r, c.1 ≠ "") →
      (r.foldl interventionFold acc).1 = acc.1 ++ r.map (·.2) := by
    intro r
    induction r with
    | nil => intro acc _; simp
    | cons c r ih =>
        intro acc hr
        have hc : c.1 ≠ "" := hr c (by simp)
        simp only [List.foldl_cons, List.map_cons]
        rw [ih _ (fun x hx => hr x (by simp [hx]))]
        simp [interventionFold, hc]
  have h2 := main row ([], "No Intervention") h
  simpa [intervention_list] using h2

/-- C1: the claim says an empty cell carries the previous non-empty value
forward, so a row with cells ["Lockdown", "", "Reopened"] under three
consecutive date columns should yield ["Lockdown", "Lockdown", "Reopened"].
The code instead compares the column header (never empty for a date column)
against the empty string, so the empty cell is emitted verbatim and the row
yields ["Lockdown", "", "Reopened"]. -/
theorem intervention_carry_forward_violated :
    intervention_list [("3/1/20", "Lockdown"), ("3/2/20", ""), ("3/3/20", "Reopened")]
      = ["Lockdown", "", "Reopened"] ∧
    intervention_list [("3/1/20", "Lockdown"), ("3/2/20", ""), ("3/3/20", "Reopened")]
      ≠ ["Lockdown", "Lockdown", "Reopened"] := by
  constructor
  · rfl
  · decide

-- --------------------------------------------------------------------------
-- The population-coverage warning loop (src/import.py lines 321-324).

/-- `sorted(places.items())`: the place map ordered by key (keys are unique,
so ordering items by key is ordering by the whole pair). -/
def sortItems (m : Places) : Places :=
  m.insertionSort (fun a b => keyLe a.1 b.1 = true)

/-- The coverage-validation loop that prints "No Population Data": it emits
the key of every sorted place satisfying `not p.population is None` — which
is the condition the source actually tests. -/
def no_population_warnings (m : Places) : List PlaceKey :=
  (sortItems m).filterMap (fun e => if ¬ e.2.population = none then some e.1 else none)

/-- C2: the claim says the "No Population Data" line is printed exactly for
the places whose population is unset.  The source's condition is inverted
(`if not p.population is None`): on a map holding one place with a population
and one without, the warning names exactly the place that HAS population data
and stays silent about the place that lacks it. -/
theorem no_population_warning_inverted :
    no_population_warnings
        [(("France", "", ""), { population := some 67000000 }),
         (("Chad", "", ""), { population := none })]
      = [("France", "", "")] ∧
    lookupP
        [(("France", "", ""), { population := some 67000000 }),
         (("Chad", "", ""), { population := none })]
        ("Chad", "", "")
      = some { population := none } := by
  constructor
  · rfl
  · rfl

-- --------------------------------------------------------------------------
-- consolidate_to_province_level (src/import.py lines 243-258).

/-- Element-wise accumulation of a source place's three count series into a
target place (`places[state].confirmed += places[p].confirmed` and the two
analogous lines); series starts agree throughout the pipeline, so only the
value arrays change. -/
def addCounts (tgt src : Place) : Place :=
  { tgt with
    confirmed := ⟨tgt.confirmed.start, zipAdd tgt.confirmed.values src.confirmed.values⟩
    deaths := ⟨tgt.deaths.start, zipAdd tgt.deaths.values src.deaths.values⟩
    recovered := ⟨tgt.recovered.start, zipAdd tgt.recovered.values src.recovered.values⟩ }

/-- The state-level place created on demand by the consolidation loop:
`Place(dates)` with its key set and the shared unknown-intervention sentinel
attached. -/
def freshState (s n : Nat) (st : PlaceKey) (unknown : List String) : Place :=
  { newPlace s n with key := some st, interventions := unknown }

/-- One iteration of the `consolidate_to_province_level` loop body for key
`p`: if `p` is a district-level key of the country, create the state-level
place on demand (running, faithfully, the source's `places[p].population =
population[p]` line — it assigns to the district place, not the new state
place), add the district's three count series into the state place, and
delete the district entry.  `s`/`n` are the start day and length of the date
range, `unknown` the shared unknown-intervention sentinel series. -/
def consolidateStep (country : String) (pop : PlaceKey → Option Int)
    (unknown : List String) (s n : Nat) (m : Places) (p : PlaceKey) : Places :=
  if p.1 = country ∧ p.2.2 ≠ "" then
    match lookupP m p with
    | none => m
    | some _ =>
      let state : PlaceKey := (p.1, p.2.1, "")
      let m1 :=
        if (lookupP m state).isSome then m
        else
          let m' := insertP m state (freshState s n state unknown)
          match pop p, lookupP m' p with
          | some v, some plp => insertP m' p { plp with population := some v }
          | _, _ => m'
      match lookupP m1 p, lookupP m1 state with
      | some plp, some pls => eraseP (insertP m1 state (addCounts pls plp)) p
      | _, _ => m1
  else m

/-- `consolidate_to_province_level(country)`: iterate the loop body over a
snapshot of the sorted key list. -/
def consolidate_to_province_level (country : String) (pop : PlaceKey → Option Int)
    (unknown : List String) (s n : Nat) (m : Places) : Places :=
  (sortKeys m).foldl (consolidateStep country pop unknown s n) m

/-- A one-district example map for exercising consolidation: a single
county-level place for Albany county, New York, with one day of data and no
population attached. -/
def albanyMap : Places :=
  [(("United States", "New York", "Albany"),
    { key := some ("United States", "New York", "Albany")
      confirmed := ⟨0, [5]⟩, deaths := ⟨0, [1]⟩, recovered := ⟨0, [2]⟩ })]

/-- A population table holding an entry for the Albany district key and
nothing else. -/
def albanyPop : PlaceKey → Option Int :=
  fun k => if k = ("United States", "New York", "Albany") then some 300000 else none

/-- C3: the claim says that when consolidation creates the state-level place
and the district key is present in the population table, the new state place
receives the county population.  The source instead assigns the population to
the district place (`places[p].population = population[p]`), which is deleted
at the end of the iteration: starting from a map with only the Albany county
place and a population entry for it, consolidation creates the New York state
place with its population still unset (while the count series are folded in
and the district key is gone). -/
theorem consolidate_population_not_inherited :
    albanyPop ("United States", "New York", "Albany") = some 300000 ∧
    lookupP albanyMap ("United States", "New York", "") = none ∧
    (lookupP (consolidate_to_province_level "United States" albanyPop ["Unknown"] 0 1 albanyMap)
        ("United States", "New York", "")).map Place.population = some none ∧
    lookupP (consolidate_to_province_level "United States" albanyPop ["Unknown"] 0 1 albanyMap)
        ("United States", "New York", "Albany") = none := by
  refine ⟨rfl, rfl, rfl, rfl⟩

-- --------------------------------------------------------------------------
-- Key canonicalization of the population and intervention tables
-- (src/import.py lines 159-169).  The canonicalizer itself (util/recon) is an
-- argument: the claim is about what the re-keying loops do with its results.

/-- Dict lookup in a generic association list. -/
def lookupA {κ V : Type} [DecidableEq κ] : List (κ × V) → κ → Option V
  | [], _ => none
  | (k', v) :: rest, k => if k' = k then some v else lookupA rest k

/-- Dict assignment in a generic association list: replace or append. -/
def upsert {κ V : Type} [DecidableEq κ] : List (κ × V) → κ → V → List (κ × V)
  | [], k, v => [(k, v)]
  | (k', v') :: rest, k, v =>
      if k' = k then (k, v) :: rest else (k', v') :: upsert rest k v

/-- The population re-keying loop: `k = recon.canonicalize(k); if k:
new_population[k] = v`.  Null (and only null — a triple is always truthy)
results are skipped. -/
def rekey_population {V : Type} (canon : PlaceKey → Option PlaceKey)
    (pop : List (PlaceKey × V)) : List (PlaceKey × V) :=
  pop.foldl
    (fun acc e =>
      match canon e.1 with
      | some k => upsert acc k e.2
      | none => acc)
    []

/-- The intervention re-keying comprehension
`{recon.canonicalize(k): v for k, v in interventions.items()}`: every entry is
inserted under its canonicalized key, a null key included — nothing is
dropped. -/
def rekey_interventions {V : Type} (canon : PlaceKey → Option PlaceKey)
    (ivs : List (PlaceKey × V)) : List (Option PlaceKey × V) :=
  ivs.foldl (fun acc e => upsert acc (canon e.1) e.2) []

theorem lookupA_upsert {κ V : Type} [DecidableEq κ] (l : List (κ × V)) (k k' : κ) (v : V) :
    lookupA (upsert l k v) k' = if k = k' then some v else lookupA l k' := by
  induction l with
  | nil => simp [upsert, lookupA]
  | cons e rest ih =>
      by_cases h1 : e.1 = k
      · simp only [upsert, lookupA, h1]
        by_cases h2 : k = k' <;> simp [h1, h2, lookupA]
      · simp only [upsert, lookupA, h1, if_neg h1]
        by_cases h2 : e.1 = k'
        · have : ¬ k = k' := fun h => h1 (h2 ▸ h.symm ▸ rfl)
          simp [lookupA, h2, this]
        · simp [lookupA, h2, ih]

theorem lookupA_upsert_isSome {κ V : Type} [DecidableEq κ] (l : List (κ × V))
    (k k' : κ) (v : V) (h : (lookupA l k').isSome) :
    (lookupA (upsert l k v) k').isSome := by
  rw [lookupA_upsert]
  by_cases hk : k = k' <;> simp [hk, h]

/-- C4 counterexample: an intervention-table entry whose key canonicalizes to
null is NOT dropped — the comprehension keeps it, keyed by null.  With a
canonicalizer that maps everything to null and a one-entry table, the re-keyed
mapping still holds the entry, under the null key. -/
theorem rekey_interventions_keeps_null :
    rekey_interventions (fun _ => none) [((("US", "US", "") : PlaceKey), (0 : Int))]
      = [(none, 0)] := rfl

/-- C4 amended: the population re-keying drops null canonicalization results —
every key of the re-keyed population mapping is a non-null canonicalizer
output — but the intervention re-keying drops nothing: every intervention
entry remains present under its canonicalized key, the null key included. -/
theorem rekey_amended {V : Type} (canon : PlaceKey → Option PlaceKey)
    (pop ivs : List (PlaceKey × V)) :
    (∀ k' v, lookupA (rekey_population canon pop) k' = some v →
        ∃ k, canon k = some k') ∧
    (∀ e ∈ ivs, (lookupA (rekey_interventions canon ivs) (canon e.1)).isSome) := by
  constructor
  · have main : ∀ (l : List (PlaceKey × V)) (acc : List (PlaceKey × V)),
        (∀ k' v, lookupA acc k' = some v → ∃ k, canon k = some k') →
        ∀ k' v,
          lookupA
            (l.foldl
              (fun acc e =>
                match canon e.1 with
                | some k => upsert acc k e.2
                | none => acc)
              acc) k' = some v →
          ∃ k, canon k = some k' := by
      intro l
      induction l with
      | nil => intro acc hacc; simpa using hacc
      | cons e rest ih =>
          intro acc hacc k' v
          simp only [List.foldl_cons]
          intro hlook
          refine ih _ ?_ k' v hlook
          intro k'' v' h
          cases hc : canon e.1 with
          | none => exact hacc k'' v' (by simpa [hc] using h)
          | some kc =>
              rw [hc] at h
              rw [lookupA_upsert] at h
              by_cases hk : kc = k''
              · exact ⟨e.1, by rw [hc, hk]⟩
              · exact hacc k'' v' (by simpa [hk] using h)
    intro k' v h
    exact main pop [] (by simp [lookupA]) k' v h
  · have mono : ∀ (l : List (PlaceKey × V)) (acc : List (Option PlaceKey × V))
        (k : Option PlaceKey), (lookupA acc k).isSome →
        (lookupA (l.foldl (fun acc e => upsert acc (canon e.1) e.2) acc) k).isSome := by
      intro l
      induction l with
      | nil => intro acc k h; simpa using h
      | cons e rest ih =>
          intro acc k h
          simp only [List.foldl_cons]
          exact ih _ k (lookupA_upsert_isSome _ _ _ _ h)
    have main : ∀ (l : List (PlaceKey × V)) (acc : List (Option PlaceKey × V)),
        ∀ e ∈ l,
          (lookupA (l.foldl (fun acc e => upsert acc (canon e.1) e.2) acc)
            (canon e.1)).isSome := by
      intro l
      induction l with
      | nil => intro acc e h; cases h
      | cons e0 rest ih =>
          intro acc e he
          simp only [List.foldl_cons]
          rcases List.mem_cons.mp he with h | h
          · subst h
            exact mono rest _ _ (by rw [lookupA_upsert]; simp)
          · exact ih _ e h
    intro e he
    simpa [rekey_interventions] using main ivs [] e he

/-- A small concrete canonicalizer: recognizes France, drops everything
else. -/
def canonEx : PlaceKey → Option PlaceKey :=
  fun k => if k = ("France", "", "") then some ("France", "", "") else none

/-- A two-entry table for exercising the re-keying loops. -/
def tableEx : List (PlaceKey × Int) :=
  [(("France", "", ""), 1), (("Bad", "", ""), 2)]

/-- Witness for the amended C4 theorem at a concrete canonicalizer and
table. -/
theorem rekey_amended_witness :
    (∃ k, canonEx k = some ("France", "", "")) ∧
    (lookupA (rekey_interventions canonEx tableEx) (canonEx ("Bad", "", ""))).isSome := by
  have h := rekey_amended canonEx tableEx tableEx
  exact ⟨h.1 ("France", "", "") 1 (by rfl), h.2 (("Bad", "", ""), 2) (by simp [tableEx])⟩

-- --------------------------------------------------------------------------
-- Association-map lemmas for the `places` dict.

theorem lookupP_insertP (m : Places) (k k' : PlaceKey) (v : Place) :
    lookupP (insertP m k v) k' = if k = k' then some v else lookupP m k' := by
  induction m with
  | nil => simp [insertP, lookupP]
  | cons e rest ih =>
      by_cases h1 : e.1 = k
      · simp only [insertP, if_pos h1]
        by_cases h2 : k = k' <;> simp [lookupP, h1, h2]
      · simp only [insertP, if_neg h1]
        by_cases h2 : e.1 = k'
        · have hkk : ¬ k = k' := fun h => h1 (by rw [h, h2])
          simp [lookupP, h2, hkk]
        · simp [lookupP, h2, ih]

theorem lookupP_eraseP_ne (m : Places) {k k' : PlaceKey} (h : k ≠ k') :
    lookupP (eraseP m k) k' = lookupP m k' := by
  induction m with
  | nil => simp [eraseP]
  | cons e rest ih =>
      have h' : ¬ k = k' := h
      have h'' : ¬ k' = k := fun hh => h hh.symm
      by_cases h1 : e.1 = k
      · have h2 : ¬ e.1 = k' := fun hh => h (by rw [← h1, hh])
        simp [eraseP, lookupP, h1, h2, h']
      · by_cases h2 : e.1 = k' <;> simp [eraseP, lookupP, h1, h2, ih, h'']

theorem lookupP_eq_none_of_not_mem {m : Places} {k : PlaceKey} (h : k ∉ keysP m) :
    lookupP m k = none := by
  induction m with
  | nil => rfl
  | cons e rest ih =>
      simp only [keysP, List.map_cons, List.mem_cons] at h
      push_neg at h
      have h1 : ¬ e.1 = k := fun hh => h.1 hh.symm
      simpa [lookupP, h1] using ih (by simpa [keysP] using h.2)

theorem lookupP_isSome_iff_mem {m : Places} {k : PlaceKey} :
    (lookupP m k).isSome ↔ k ∈ keysP m := by
  induction m with
  | nil => simp [lookupP, keysP]
  | cons e rest ih =>
      by_cases h1 : e.1 = k
      · simp [lookupP, keysP, h1]
      · have h1' : ¬ k = e.1 := fun hh => h1 hh.symm
        simp [lookupP, keysP, h1, h1', ih]

theorem keysP_eraseP_sublist (m : Places) (k : PlaceKey) :
    (keysP (eraseP m k)).Sublist (keysP m) := by
  induction m with
  | nil => simp [eraseP, keysP]
  | cons e rest ih =>
      by_cases h1 : e.1 = k
      · simp only [eraseP, if_pos h1, keysP, List.map_cons]
        exact List.sublist_cons_self _ _
      · simp only [eraseP, if_neg h1, keysP, List.map_cons]
        exact List.Sublist.cons₂ _ ih

theorem nodup_keysP_eraseP {m : Places} (k : PlaceKey) (h : (keysP m).Nodup) :
    (keysP (eraseP m k)).Nodup :=
  (keysP_eraseP_sublist m k).nodup h

theorem lookupP_eraseP_self {m : Places} (k : PlaceKey) (h : (keysP m).Nodup) :
    lookupP (eraseP m k) k = none := by
  induction m with
  | nil => rfl
  | cons e rest ih =>
      simp only [keysP, List.map_cons, List.nodup_cons] at h
      by_cases h1 : e.1 = k
      · rw [eraseP, if_pos h1]
        exact lookupP_eq_none_of_not_mem (h1 ▸ h.1)
      · rw [eraseP, if_neg h1]
        simpa [lookupP, h1] using ih h.2

theorem mem_keysP_insertP {m : Places} {k a : PlaceKey} {v : Place}
    (h : a ∈ keysP (insertP m k v)) : a ∈ keysP m ∨ a = k := by
  induction m with
  | nil => simpa [insertP, keysP] using h
  | cons e rest ih =>
      by_cases h1 : e.1 = k
      · simp only [insertP, if_pos h1, keysP, List.map_cons, List.mem_cons] at h ⊢
        rcases h with h | h
        · exact Or.inr h
        · exact Or.inl (Or.inr h)
      · simp only [insertP, if_neg h1, keysP, List.map_cons, List.mem_cons] at h ⊢
        rcases h with h | h
        · exact Or.inl (Or.inl h)
        · rcases ih h with h' | h'
          · exact Or.inl (Or.inr h')
          · exact Or.inr h'

theorem nodup_keysP_insertP {m : Places} (k : PlaceKey) (v : Place)
    (h : (keysP m).Nodup) : (keysP (insertP m k v)).Nodup := by
  induction m with
  | nil => simp [insertP, keysP]
  | cons e rest ih =>
      simp only [keysP, List.map_cons, List.nodup_cons] at h
      by_cases h1 : e.1 = k
      · simp only [insertP, if_pos h1, keysP, List.map_cons, List.nodup_cons]
        exact ⟨h1 ▸ h.1, h.2⟩
      · simp only [insertP, if_neg h1, keysP, List.map_cons, List.nodup_cons]
        refine ⟨fun hmem => ?_, ih h.2⟩
        rcases mem_keysP_insertP hmem with h' | h'
        · exact h.1 h'
        · exact h1 h'

-- --------------------------------------------------------------------------
-- Series-sum lemmas.

theorem zipAdd_length (a b : List Int) : (zipAdd a b).length = min a.length b.length :=
  List.length_zipWith _ _ _

theorem zipAdd_replicate_zero {a : List Int} {n : Nat} (h : a.length = n) :
    zipAdd a (List.replicate n 0) = a := by
  induction a generalizing n with
  | nil => simp [zipAdd]
  | cons x xs ih =>
      cases n with
      | zero => simp at h
      | succ n =>
          simp only [List.length_cons, Nat.succ.injEq] at h
          have hxs := ih h
          simp only [zipAdd] at hxs ⊢
          simp [List.replicate_succ, hxs]

/-- Summing a list of series element-wise onto a base series (the repeated
`+=` of the consolidation loops). -/
def sumSeries (base : List Int) (l : List (List Int)) : List Int :=
  l.foldl zipAdd base

theorem sumSeries_append (base : List Int) (l1 l2 : List (List Int)) :
    sumSeries base (l1 ++ l2) = sumSeries (sumSeries base l1) l2 :=
  List.foldl_append _ _ _ _

theorem sumSeries_length {base : List Int} {l : List (List Int)} {n : Nat}
    (hb : base.length = n) (hl : ∀ x ∈ l, x.length = n) :
    (sumSeries base l).length = n := by
  induction l generalizing base with
  | nil => simpa [sumSeries] using hb
  | cons x xs ih =>
      have hx : x.length = n := hl x (by simp)
      have : (zipAdd base x).length = n := by
        rw [zipAdd_length, hb, hx, Nat.min_self]
      exact ih this (fun y hy => hl y (by simp [hy]))

-- --------------------------------------------------------------------------
-- The sum-preservation argument for consolidate_to_province_level.

/-- The value array of a place's series under a selector, zero-initialized
(over an `n`-day range) when the key is absent — matching the
claim's "zero-initialized if that key did not exist". -/
def seriesValues (sel : Place → TimeSeries) (n : Nat) (m : Places) (k : PlaceKey) :
    List Int :=
  match lookupP m k with
  | some pl => (sel pl).values
  | none => List.replicate n 0

/-- The district-level keys of a given country and province occurring in a
key list. -/
def districtKeys (country prov : String) (ks : List PlaceKey) : List PlaceKey :=
  ks.filter (fun k => decide (k.1 = country) && decide (k.2.1 = prov) && !decide (k.2.2 = ""))

/-- The claim's right-hand side: the pre-consolidation state-level series
plus the element-wise sum of the pre-consolidation series of the district
keys drawn from `ks`. -/
def districtSum (sel : Place → TimeSeries) (n : Nat) (m0 : Places)
    (country prov : String) (ks : List PlaceKey) : List Int :=
  sumSeries (seriesValues sel n m0 (country, prov, ""))
    ((districtKeys country prov ks).map (seriesValues sel n m0))

/-- The properties shared by the three count-series selectors (confirmed,
deaths, recovered) that the consolidation argument uses. -/
structure CountSel (sel : Place → TimeSeries) : Prop where
  addCounts_eq : ∀ a b, sel (addCounts a b) =
    ⟨(sel a).start, zipAdd (sel a).values (sel b).values⟩
  pop_eq : ∀ pl v, sel { pl with population := v } = sel pl
  fresh_eq : ∀ s n st unk,
    sel (freshState s n st unk) = ⟨s, List.replicate n 0⟩
  isField : (∀ pl, sel pl = pl.confirmed) ∨ (∀ pl, sel pl = pl.deaths) ∨
    (∀ pl, sel pl = pl.recovered)

theorem countSel_confirmed : CountSel Place.confirmed :=
  ⟨fun _ _ => rfl, fun _ _ => rfl, fun _ _ _ _ => rfl, Or.inl (fun _ => rfl)⟩

theorem countSel_deaths : CountSel Place.deaths :=
  ⟨fun _ _ => rfl, fun _ _ => rfl, fun _ _ _ _ => rfl, Or.inr (Or.inl (fun _ => rfl))⟩

theorem countSel_recovered : CountSel Place.recovered :=
  ⟨fun _ _ => rfl, fun _ _ => rfl, fun _ _ _ _ => rfl, Or.inr (Or.inr (fun _ => rfl))⟩

/-- Shorthand for "every series of every place in the map spans `n` days". -/
def AllLen (n : Nat) (m : Places) : Prop :=
  ∀ k pl, lookupP m k = some pl →
    pl.confirmed.values.length = n ∧ pl.deaths.values.length = n ∧
      pl.recovered.values.length = n

theorem seriesValues_length {sel : Place → TimeSeries} {n : Nat} {m : Places}
    (hsel : CountSel sel) (hlen : AllLen n m) (k : PlaceKey) :
    (seriesValues sel n m k).length = n := by
  unfold seriesValues
  cases hlk : lookupP m k with
  | none => simp
  | some pl =>
      show ((sel pl).values).length = n
      have hl := hlen k pl hlk
      rcases hsel.isField with hf | hf | hf <;> rw [hf pl]
      · exact hl.1
      · exact hl.2.1
      · exact hl.2.2

theorem districtSum_length {sel : Place → TimeSeries} {n : Nat} {m0 : Places}
    (hsel : CountSel sel) (hlen : AllLen n m0) (country prov : String)
    (ks : List PlaceKey) : (districtSum sel n m0 country prov ks).length = n := by
  unfold districtSum
  refine sumSeries_length (seriesValues_length hsel hlen _) ?_
  intro x hx
  rcases List.mem_map.mp hx with ⟨k, _, hk⟩
  rw [← hk]
  exact seriesValues_length hsel hlen k

/-- The loop invariant for `consolidate_to_province_level`: after the keys in
`processed` have been handled, (i) the map keys are still unique, (ii) every
series still spans `n` days, (iii) a district-level key of the country is
present exactly if it has not been processed, with its original record, and
(iv) each state-level series equals the original state-level series plus the
element-wise sum of the processed district series. -/
structure ConsInv (country : String) (n : Nat) (m0 : Places)
    (processed : List PlaceKey) (m : Places) : Prop where
  nodup : (keysP m).Nodup
  lens : AllLen n m
  district : ∀ k : PlaceKey, k.1 = country → k.2.2 ≠ "" →
    lookupP m k = if k ∈ processed then none else lookupP m0 k
  statesum : ∀ (prov : String) (sel : Place → TimeSeries), CountSel sel →
    seriesValues sel n m (country, prov, "") = districtSum sel n m0 country prov processed

theorem districtKeys_append_single (country prov : String) (ks : List PlaceKey)
    (p : PlaceKey) :
    districtKeys country prov (ks ++ [p]) =
      if p.1 = country ∧ p.2.1 = prov ∧ p.2.2 ≠ ""
      then districtKeys country prov ks ++ [p]
      else districtKeys country prov ks := by
  unfold districtKeys
  rw [List.filter_append]
  by_cases h : p.1 = country ∧ p.2.1 = prov ∧ p.2.2 ≠ ""
  · rw [if_pos h]
    simp [List.filter_cons, h.1, h.2.1, h.2.2]
  · rw [if_neg h]
    suffices hf : (decide (p.1 = country) && decide (p.2.1 = prov) &&
        !decide (p.2.2 = "")) = false by
      simp [List.filter_cons, hf]
    by_cases h1 : p.1 = country
    · by_cases h2 : p.2.1 = prov
      · by_cases h3 : p.2.2 = ""
        · simp [h1, h2, h3]
        · exact absurd ⟨h1, h2, h3⟩ h
      · simp [h2]
    · simp [h1]

theorem districtSum_append_single (sel : Place → TimeSeries) (n : Nat) (m0 : Places)
    (country prov : String) (ks : List PlaceKey) (p : PlaceKey) :
    districtSum sel n m0 country prov (ks ++ [p]) =
      if p.1 = country ∧ p.2.1 = prov ∧ p.2.2 ≠ ""
      then zipAdd (districtSum sel n m0 country prov ks) (seriesValues sel n m0 p)
      else districtSum sel n m0 country prov ks := by
  unfold districtSum
  rw [districtKeys_append_single]
  by_cases h : p.1 = country ∧ p.2.1 = prov ∧ p.2.2 ≠ ""
  · rw [if_pos h, if_pos h, List.map_append, sumSeries_append]
    simp [sumSeries]
  · rw [if_neg h, if_neg h]

/-- The body of the invariant-preservation argument once the shape of the
updated map is known: processing a present district key `p` erases it and
folds its counts into the state place. -/
theorem consInv_step_core (country : String) (n : Nat) (m0 : Places)
    (processed : List PlaceKey) (m m1 : Places) (p : PlaceKey) (plp plp' pls : Place)
    (hp : p ∉ processed)
    (hinv : ConsInv country n m0 processed m)
    (hpc : p.1 = country) (hpd : p.2.2 ≠ "")
    (hlp : lookupP m p = some plp)
    (hseries : plp'.confirmed = plp.confirmed ∧ plp'.deaths = plp.deaths ∧
      plp'.recovered = plp.recovered)
    (hpls : ∀ sel : Place → TimeSeries, CountSel sel →
      (sel pls).values = districtSum sel n m0 country p.2.1 processed)
    (hplslen : pls.confirmed.values.length = n ∧ pls.deaths.values.length = n ∧
      pls.recovered.values.length = n)
    (hother : ∀ k, k ≠ p → k ≠ (p.1, p.2.1, "") → lookupP m1 k = lookupP m k)
    (hnd1 : (keysP m1).Nodup)
    (hlen1 : AllLen n m1) :
    ConsInv country n m0 (processed ++ [p])
      (eraseP (insertP m1 (p.1, p.2.1, "") (addCounts pls plp')) p) := by
  have hps : p ≠ (p.1, p.2.1, "") := fun he => hpd (by rw [he])
  have hplen := hinv.lens p plp hlp
  have hplen' : plp'.confirmed.values.length = n ∧ plp'.deaths.values.length = n ∧
      plp'.recovered.values.length = n := by
    rw [hseries.1, hseries.2.1, hseries.2.2]
    exact hplen
  have hnd2 : (keysP (insertP m1 (p.1, p.2.1, "") (addCounts pls plp'))).Nodup :=
    nodup_keysP_insertP _ _ hnd1
  refine ⟨nodup_keysP_eraseP _ hnd2, ?_, ?_, ?_⟩
  · -- all series still span n days
    intro k pl hlk
    by_cases hkp : k = p
    · rw [hkp, lookupP_eraseP_self p hnd2] at hlk
      cases hlk
    · rw [lookupP_eraseP_ne _ (fun he => hkp he.symm)] at hlk
      rw [lookupP_insertP] at hlk
      by_cases hks : (p.1, p.2.1, "") = k
      · rw [if_pos hks] at hlk
        have hpl : pl = addCounts pls plp' := by
          exact (Option.some.injEq _ _).mp hlk.symm
        rw [hpl]
        unfold addCounts
        refine ⟨?_, ?_, ?_⟩ <;>
          simp [zipAdd_length, hplslen.1, hplslen.2.1, hplslen.2.2,
            hplen'.1, hplen'.2.1, hplen'.2.2]
      · rw [if_neg hks] at hlk
        exact hlen1 k pl hlk
  · -- district-level keys of the country: processed ones are gone
    intro k hk1 hk2
    by_cases hkp : k = p
    · rw [hkp]
      rw [lookupP_eraseP_self p hnd2]
      simp
    · have hkps : k ≠ (p.1, p.2.1, "") := fun he => hk2 (by rw [he])
      rw [lookupP_eraseP_ne _ (fun he => hkp he.symm), lookupP_insertP,
        if_neg (fun he => hkps he.symm), hother k hkp hkps,
        hinv.district k hk1 hk2]
      have hmem : (k ∈ processed ++ [p]) ↔ k ∈ processed := by simp [hkp]
      by_cases hm : k ∈ processed
      · simp [hm]
      · simp [hm, hkp]
  · -- state-level series accumulate the processed district series
    intro prov sel hsel
    have hselpp : sel plp' = sel plp := by
      rcases hsel.isField with hf | hf | hf
      · rw [hf plp', hf plp]; exact hseries.1
      · rw [hf plp', hf plp]; exact hseries.2.1
      · rw [hf plp', hf plp]; exact hseries.2.2
    by_cases hprov : prov = p.2.1
    · -- the state of p's own province: gains p's series
      have hkey : ((country, prov, "") : PlaceKey) = (p.1, p.2.1, "") := by
        rw [hpc, hprov]
      have hlkst :
          lookupP (eraseP (insertP m1 (p.1, p.2.1, "") (addCounts pls plp')) p)
            ((country, prov, "") : PlaceKey) = some (addCounts pls plp') := by
        rw [hkey, lookupP_eraseP_ne _ hps, lookupP_insertP, if_pos rfl]
      rw [show seriesValues sel n
            (eraseP (insertP m1 (p.1, p.2.1, "") (addCounts pls plp')) p)
            (country, prov, "") = (sel (addCounts pls plp')).values from by
          unfold seriesValues; rw [hlkst]]
      rw [hsel.addCounts_eq pls plp', districtSum_append_single,
        if_pos ⟨hpc, hprov.symm, hpd⟩]
      have hm0p : lookupP m0 p = some plp := by
        have hd := hinv.district p hpc hpd
        rw [if_neg hp] at hd
        rw [← hd, hlp]
      rw [show seriesValues sel n m0 p = (sel plp).values from by
          unfold seriesValues; rw [hm0p]]
      rw [hpls sel hsel, hselpp, hprov]
    · -- other provinces: untouched
      have hkp : ((country, prov, "") : PlaceKey) ≠ p := fun he => hpd (by rw [← he])
      have hkst : ((country, prov, "") : PlaceKey) ≠ (p.1, p.2.1, "") := by
        intro he
        exact hprov (congrArg (fun q : PlaceKey => q.2.1) he)
      have hlkst :
          lookupP (eraseP (insertP m1 (p.1, p.2.1, "") (addCounts pls plp')) p)
            ((country, prov, "") : PlaceKey) = lookupP m (country, prov, "") := by
        rw [lookupP_eraseP_ne _ (fun he => hkp he.symm), lookupP_insertP,
          if_neg (fun he => hkst he.symm), hother _ hkp hkst]
      rw [show seriesValues sel n
            (eraseP (insertP m1 (p.1, p.2.1, "") (addCounts pls plp')) p)
            (country, prov, "") = seriesValues sel n m (country, prov, "") from by
          unfold seriesValues; rw [hlkst]]
      rw [districtSum_append_single, if_neg (fun hq => hprov hq.2.1.symm)]
      exact hinv.statesum prov sel hsel

/-- Processing one key of the snapshot preserves the consolidation
invariant. -/
theorem consInv_step (country : String) (pop : PlaceKey → Option Int)
    (unknown : List String) (s n : Nat) (m0 : Places) (processed : List PlaceKey)
    (m : Places) (p : PlaceKey)
    (hm0 : AllLen n m0) (hp : p ∉ processed)
    (hinv : ConsInv country n m0 processed m) :
    ConsInv country n m0 (processed ++ [p])
      (consolidateStep country pop unknown s n m p) := by
  by_cases hcase : p.1 = country ∧ p.2.2 ≠ ""
  · obtain ⟨hpc, hpd⟩ := hcase
    have hps : ((p.1, p.2.1, "") : PlaceKey) ≠ p := fun he => hpd (by rw [← he])
    cases hlp : lookupP m p with
    | none =>
        have hstep : consolidateStep country pop unknown s n m p = m := by
          unfold consolidateStep
          rw [if_pos ⟨hpc, hpd⟩, hlp]
        have hm0p : lookupP m0 p = none := by
          have hd := hinv.district p hpc hpd
          rw [if_neg hp] at hd
          rw [← hd]
          exact hlp
        rw [hstep]
        refine ⟨hinv.nodup, hinv.lens, ?_, ?_⟩
        · intro k hk1 hk2
          by_cases hkp : k = p
          · subst hkp
            rw [hlp]
            simp
          · rw [hinv.district k hk1 hk2]
            by_cases hm : k ∈ processed
            · simp [hm]
            · simp [hm, hkp]
        · intro prov sel hsel
          rw [districtSum_append_single]
          by_cases hq : p.1 = country ∧ p.2.1 = prov ∧ p.2.2 ≠ ""
          · rw [if_pos hq]
            rw [show seriesValues sel n m0 p = List.replicate n 0 from by
                unfold seriesValues; rw [hm0p]]
            rw [zipAdd_replicate_zero (districtSum_length hsel hm0 country prov processed)]
            exact hinv.statesum prov sel hsel
          · rw [if_neg hq]
            exact hinv.statesum prov sel hsel
    | some plp =>
        cases hst : lookupP m (p.1, p.2.1, "") with
        | some pls0 =>
            have hstep : consolidateStep country pop unknown s n m p =
                eraseP (insertP m (p.1, p.2.1, "") (addCounts pls0 plp)) p := by
              unfold consolidateStep
              rw [if_pos ⟨hpc, hpd⟩]
              simp only [hlp, hst, Option.isSome_some, if_true]
            rw [hstep]
            refine consInv_step_core country n m0 processed m m p plp plp pls0
              hp hinv hpc hpd hlp ⟨rfl, rfl, rfl⟩ ?_ ?_ ?_ hinv.nodup hinv.lens
            · intro sel hsel
              have hss := hinv.statesum p.2.1 sel hsel
              rw [show seriesValues sel n m (country, p.2.1, "") = (sel pls0).values from by
                  unfold seriesValues; rw [← hpc, hst]] at hss
              exact hss
            · exact hinv.lens _ pls0 hst
            · intro k _ _
              rfl
        | none =>
            have hm'p : lookupP (insertP m (p.1, p.2.1, "")
                (freshState s n (p.1, p.2.1, "") unknown)) p = some plp := by
              rw [lookupP_insertP, if_neg hps]
              exact hlp
            have hm's : lookupP (insertP m (p.1, p.2.1, "")
                (freshState s n (p.1, p.2.1, "") unknown)) (p.1, p.2.1, "")
                = some (freshState s n (p.1, p.2.1, "") unknown) := by
              rw [lookupP_insertP, if_pos rfl]
            have hfreshvals : ∀ sel : Place → TimeSeries, CountSel sel →
                (sel (freshState s n (p.1, p.2.1, "") unknown)).values
                  = districtSum sel n m0 country p.2.1 processed := by
              intro sel hsel
              rw [hsel.fresh_eq s n (p.1, p.2.1, "") unknown]
              have hss := hinv.statesum p.2.1 sel hsel
              rw [show seriesValues sel n m (country, p.2.1, "") = List.replicate n 0 from by
                  unfold seriesValues; rw [← hpc, hst]] at hss
              exact hss
            have hfreshlen :
                (freshState s n (p.1, p.2.1, "") unknown).confirmed.values.length = n ∧
                (freshState s n (p.1, p.2.1, "") unknown).deaths.values.length = n ∧
                (freshState s n (p.1, p.2.1, "") unknown).recovered.values.length = n := by
              simp [freshState, newPlace]
            cases hpop : pop p with
            | none =>
                have hstep : consolidateStep country pop unknown s n m p =
                    eraseP (insertP
                      (insertP m (p.1, p.2.1, "") (freshState s n (p.1, p.2.1, "") unknown))
                      (p.1, p.2.1, "")
                      (addCounts (freshState s n (p.1, p.2.1, "") unknown) plp)) p := by
                  unfold consolidateStep
                  rw [if_pos ⟨hpc, hpd⟩]
                  simp only [hlp, hst, hpop, hm'p, hm's, Option.isSome_none,
                    Bool.false_eq_true, if_false]
                rw [hstep]
                refine consInv_step_core country n m0 processed m _ p plp plp _
                  hp hinv hpc hpd hlp ⟨rfl, rfl, rfl⟩ hfreshvals hfreshlen ?_ ?_ ?_
                · intro k hkp hks
                  rw [lookupP_insertP, if_neg (fun he => hks he.symm)]
                · exact nodup_keysP_insertP _ _ hinv.nodup
                · intro k pl hlk
                  rw [lookupP_insertP] at hlk
                  by_cases hks : ((p.1, p.2.1, "") : PlaceKey) = k
                  · rw [if_pos hks] at hlk
                    cases hlk
                    exact hfreshlen
                  · rw [if_neg hks] at hlk
                    exact hinv.lens k pl hlk
            | some v =>
                have h1p : lookupP (insertP
                    (insertP m (p.1, p.2.1, "") (freshState s n (p.1, p.2.1, "") unknown))
                    p { plp with population := some v }) p
                    = some { plp with population := some v } := by
                  rw [lookupP_insertP, if_pos rfl]
                have h1s : lookupP (insertP
                    (insertP m (p.1, p.2.1, "") (freshState s n (p.1, p.2.1, "") unknown))
                    p { plp with population := some v }) (p.1, p.2.1, "")
                    = some (freshState s n (p.1, p.2.1, "") unknown) := by
                  rw [lookupP_insertP, if_neg (fun he => hps he.symm)]
                  exact hm's
                have hstep : consolidateStep country pop unknown s n m p =
                    eraseP (insertP
                      (insertP
                        (insertP m (p.1, p.2.1, "") (freshState s n (p.1, p.2.1, "") unknown))
                        p { plp with population := some v })
                      (p.1, p.2.1, "")
                      (addCounts (freshState s n (p.1, p.2.1, "") unknown)
                        { plp with population := some v })) p := by
                  unfold consolidateStep
                  rw [if_pos ⟨hpc, hpd⟩]
                  simp only [hlp, hst, hpop, hm'p, h1p, h1s, Option.isSome_none,
                    Bool.false_eq_true, if_false]
                rw [hstep]
                refine consInv_step_core country n m0 processed m _ p plp
                  { plp with population := some v } _
                  hp hinv hpc hpd hlp ⟨rfl, rfl, rfl⟩ hfreshvals hfreshlen ?_ ?_ ?_
                · intro k hkp hks
                  rw [lookupP_insertP, if_neg (fun he => hkp he.symm),
                    lookupP_insertP, if_neg (fun he => hks he.symm)]
                · exact nodup_keysP_insertP _ _ (nodup_keysP_insertP _ _ hinv.nodup)
                · intro k pl hlk
                  rw [lookupP_insertP] at hlk
                  by_cases hkp : p = k
                  · rw [if_pos hkp] at hlk
                    cases hlk
                    exact hinv.lens p plp hlp
                  · rw [if_neg hkp, lookupP_insertP] at hlk
                    by_cases hks : ((p.1, p.2.1, "") : PlaceKey) = k
                    · rw [if_pos hks] at hlk
                      cases hlk
                      exact hfreshlen
                    · rw [if_neg hks] at hlk
                      exact hinv.lens k pl hlk
  · have hstep : consolidateStep country pop unknown s n m p = m := by
      unfold consolidateStep
      rw [if_neg hcase]
    rw [hstep]
    refine ⟨hinv.nodup, hinv.lens, ?_, ?_⟩
    · intro k hk1 hk2
      have hkp : k ≠ p := fun he => hcase (by rw [← he]; exact ⟨hk1, hk2⟩)
      rw [hinv.district k hk1 hk2]
      by_cases hm : k ∈ processed
      · simp [hm]
      · simp [hm, hkp]
    · intro prov sel hsel
      rw [districtSum_append_single, if_neg (fun hq => hcase ⟨hq.1, hq.2.2⟩)]
      exact hinv.statesum prov sel hsel

/-- Folding the loop body over any duplicate-free list of snapshot keys
preserves the consolidation invariant. -/
theorem consInv_fold (country : String) (pop : PlaceKey → Option Int)
    (unknown : List String) (s n : Nat) (m0 : Places) (ks : List PlaceKey) :
    ∀ (processed : List PlaceKey) (m : Places),
      AllLen n m0 → ks.Nodup → (∀ k ∈ ks, k ∉ processed) →
      ConsInv country n m0 processed m →
      ConsInv country n m0 (processed ++ ks)
        (ks.foldl (consolidateStep country pop unknown s n) m) := by
  induction ks with
  | nil =>
      intro processed m _ _ _ hinv
      simpa using hinv
  | cons p ks ih =>
      intro processed m hm0 hnd hdisj hinv
      simp only [List.foldl_cons]
      have hstep := consInv_step country pop unknown s n m0 processed m p hm0
        (hdisj p (by simp)) hinv
      have hdisj' : ∀ k ∈ ks, k ∉ processed ++ [p] := by
        intro k hk
        simp only [List.mem_append, List.mem_singleton]
        rintro (h | h)
        · exact hdisj k (by simp [hk]) h
        · rw [h] at hk
          exact (List.nodup_cons.mp hnd).1 hk
      have hres := ih (processed ++ [p]) _ hm0 (List.nodup_cons.mp hnd).2 hdisj' hstep
      simpa [List.append_assoc] using hres

theorem lookupP_mem {m : Places} {k : PlaceKey} {pl : Place}
    (h : lookupP m k = some pl) : (k, pl) ∈ m := by
  induction m with
  | nil => cases h
  | cons e rest ih =>
      by_cases h1 : e.1 = k
      · rw [lookupP, if_pos h1] at h
        cases h
        have he : e = (k, e.2) := by rw [← h1]
        rw [← he]
        exact List.mem_cons_self _ _
      · rw [lookupP, if_neg h1] at h
        exact List.mem_cons_of_mem _ (ih h)

theorem allLen_of_forall_mem {n : Nat} {m : Places}
    (h : ∀ e ∈ m, (e.2.confirmed.values.length = n ∧ e.2.deaths.values.length = n ∧
      e.2.recovered.values.length = n)) : AllLen n m :=
  fun k pl hlk => h (k, pl) (lookupP_mem hlk)

/-- C5: county-to-state consolidation is sum-preserving.  After
`consolidate_to_province_level(country)` runs on a map with unique keys whose
series all span the `n`-day range, (i) no key of that country with a
non-empty district remains, and (ii) for every province, the state-level
confirmed series (and likewise deaths and recovered) equals the
pre-consolidation state-level series — zero-initialized when that key did not
exist — plus the element-wise sum of the pre-consolidation series of every
district-level key of that country and province. -/
theorem consolidate_sum_preserving (country : String) (pop : PlaceKey → Option Int)
    (unknown : List String) (s n : Nat) (m0 : Places)
    (hnd : (keysP m0).Nodup) (hm0 : AllLen n m0) :
    (∀ k : PlaceKey, k.1 = country → k.2.2 ≠ "" →
        lookupP (consolidate_to_province_level country pop unknown s n m0) k = none) ∧
    (∀ prov : String,
        seriesValues Place.confirmed n
            (consolidate_to_province_level country pop unknown s n m0) (country, prov, "")
          = districtSum Place.confirmed n m0 country prov (sortKeys m0)) ∧
    (∀ prov : String,
        seriesValues Place.deaths n
            (consolidate_to_province_level country pop unknown s n m0) (country, prov, "")
          = districtSum Place.deaths n m0 country prov (sortKeys m0)) ∧
    (∀ prov : String,
        seriesValues Place.recovered n
            (consolidate_to_province_level country pop unknown s n m0) (country, prov, "")
          = districtSum Place.recovered n m0 country prov (sortKeys m0)) := by
  have hperm : (sortKeys m0).Perm (keysP m0) :=
    List.perm_insertionSort (fun a b => keyLe a b = true) (keysP m0)
  have hndks : (sortKeys m0).Nodup := hperm.symm.nodup hnd
  have hinv0 : ConsInv country n m0 [] m0 := by
    refine ⟨hnd, hm0, ?_, ?_⟩
    · intro k _ _
      simp
    · intro prov sel _
      rfl
  have hfin := consInv_fold country pop unknown s n m0 (sortKeys m0) [] m0
    hm0 hndks (by intro k _; simp) hinv0
  rw [List.nil_append] at hfin
  have hres : consolidate_to_province_level country pop unknown s n m0
      = (sortKeys m0).foldl (consolidateStep country pop unknown s n) m0 := rfl
  refine ⟨?_, ?_, ?_, ?_⟩
  · intro k hk1 hk2
    rw [hres]
    have hd := hfin.district k hk1 hk2
    by_cases hm : k ∈ sortKeys m0
    · rw [hd, if_pos hm]
    · rw [hd, if_neg hm]
      exact lookupP_eq_none_of_not_mem (fun hmem => hm (hperm.mem_iff.mpr hmem))
  · intro prov
    rw [hres]
    exact hfin.statesum prov Place.confirmed countSel_confirmed
  · intro prov
    rw [hres]
    exact hfin.statesum prov Place.deaths countSel_deaths
  · intro prov
    rw [hres]
    exact hfin.statesum prov Place.recovered countSel_recovered

/-- A two-district example for the consolidation theorem: two New York
counties with two days of data each. -/
def twoCountyMap : Places :=
  [(("United States", "New York", "Kings"),
    { confirmed := ⟨0, [1, 2]⟩, deaths := ⟨0, [0, 1]⟩, recovered := ⟨0, [0, 0]⟩ }),
   (("United States", "New York", "Queens"),
    { confirmed := ⟨0, [3, 4]⟩, deaths := ⟨0, [1, 0]⟩, recovered := ⟨0, [2, 2]⟩ })]

/-- Witness for C5 at the concrete two-county map. -/
theorem consolidate_sum_preserving_witness :
    (keysP twoCountyMap).Nodup ∧
    (∀ e ∈ twoCountyMap, e.2.confirmed.values.length = 2 ∧
      e.2.deaths.values.length = 2 ∧ e.2.recovered.values.length = 2) ∧
    lookupP (consolidate_to_province_level "United States" (fun _ => none)
        ["Unknown", "Unknown"] 0 2 twoCountyMap) ("United States", "New York", "Kings")
      = none ∧
    seriesValues Place.confirmed 2
        (consolidate_to_province_level "United States" (fun _ => none)
          ["Unknown", "Unknown"] 0 2 twoCountyMap) ("United States", "New York", "")
      = districtSum Place.confirmed 2 twoCountyMap "United States" "New York"
          (sortKeys twoCountyMap) := by
  have hmem : ∀ e ∈ twoCountyMap, e.2.confirmed.values.length = 2 ∧
      e.2.deaths.values.length = 2 ∧ e.2.recovered.values.length = 2 := by decide
  have h := consolidate_sum_preserving "United States" (fun _ => none)
    ["Unknown", "Unknown"] 0 2 twoCountyMap (by decide) (allLen_of_forall_mem hmem)
  exact ⟨by decide, hmem, h.1 ("United States", "New York", "Kings") rfl (by decide),
    h.2.1 "New York"⟩

-- --------------------------------------------------------------------------
-- correct_late_reporting (src/import.py lines 293-301).

/-- Truncation toward zero (numpy's `astype(int)`) of a rational. -/
def truncToward0 (q : ℚ) : Int := if 0 ≤ q then ⌊q⌋ else -⌊-q⌋

/-- `correct_late_reporting(p, d)`: look the place up, compute the scale
factor deaths[d] / deaths[d-1] (an unguarded division — a zero divisor is an
error, modelled as `none`, as is a date outside the series range), and
replace every deaths value strictly before position of `d` by the scaled,
truncated-toward-zero value.  Confirmed and recovered are untouched. -/
def correct_late_reporting (m : Places) (p : PlaceKey) (d : Nat) : Option Places :=
  match lookupP m p with
  | none => none
  | some place =>
    match place.deaths.date_to_position d, place.deaths.date_to_position (d - 1) with
    | some pos, some posPrev =>
        let vd : Int := place.deaths.values.getD pos 0
        let vp : Int := place.deaths.values.getD posPrev 0
        if vp = 0 then none
        else
          let scaling : ℚ := (vd : ℚ) / (vp : ℚ)
          some (insertP m p
            { place with deaths :=
                ⟨place.deaths.start,
                  (place.deaths.values.take pos).map
                      (fun v : Int => truncToward0 ((v : ℚ) * scaling))
                    ++ place.deaths.values.drop pos⟩ })
    | _, _ => none

theorem date_to_position_some {ts : TimeSeries} {d i : Nat}
    (h : ts.date_to_position d = some i) :
    ts.start ≤ d ∧ d - ts.start < ts.values.length ∧ i = d - ts.start := by
  unfold TimeSeries.date_to_position at h
  by_cases hc : ts.start ≤ d ∧ d - ts.start < ts.values.length
  · rw [if_pos hc] at h
    cases h
    exact ⟨hc.1, hc.2, rfl⟩
  · rw [if_neg hc] at h
    cases h

/-- C6: the retroactive rescaling correction leaves every deaths value at the
pivot date and later unchanged, replaces every deaths value strictly before
the pivot date by the old value multiplied by the ratio
deaths[d] / deaths[d-1] and truncated toward zero, and leaves the confirmed
and recovered series unchanged everywhere. -/
theorem late_reporting_rescaling (m : Places) (p : PlaceKey) (d : Nat) (pl : Place)
    (vd vp : Int)
    (hlk : lookupP m p = some pl)
    (hd : pl.deaths.get d = some vd)
    (hprev : pl.deaths.get (d - 1) = some vp)
    (hvp : vp ≠ 0) :
    ∃ m' pl', correct_late_reporting m p d = some m' ∧ lookupP m' p = some pl' ∧
      pl'.confirmed = pl.confirmed ∧ pl'.recovered = pl.recovered ∧
      (∀ e, d ≤ e → pl'.deaths.get e = pl.deaths.get e) ∧
      (∀ e, e < d → pl'.deaths.get e
        = (pl.deaths.get e).map
            (fun v : Int => truncToward0 ((v : ℚ) * ((vd : ℚ) / (vp : ℚ))))) := by
  unfold TimeSeries.get at hd hprev
  cases hpos : pl.deaths.date_to_position d with
  | none => rw [hpos] at hd; cases hd
  | some pos =>
  cases hposPrev : pl.deaths.date_to_position (d - 1) with
  | none => rw [hposPrev] at hprev; cases hprev
  | some posPrev =>
  rw [hpos] at hd
  rw [hposPrev] at hprev
  have hd' : pl.deaths.values.getD pos 0 = vd := by simpa using hd
  have hprev' : pl.deaths.values.getD posPrev 0 = vp := by simpa using hprev
  obtain ⟨hsd, hlend, hposeq⟩ := date_to_position_some hpos
  have hposlen : pos ≤ pl.deaths.values.length := by
    rw [hposeq]
    exact Nat.le_of_lt hlend
  refine ⟨insertP m p
      { pl with deaths :=
          ⟨pl.deaths.start,
            (pl.deaths.values.take pos).map
                (fun v : Int => truncToward0 ((v : ℚ) * ((vd : ℚ) / (vp : ℚ))))
              ++ pl.deaths.values.drop pos⟩ },
    { pl with deaths :=
          ⟨pl.deaths.start,
            (pl.deaths.values.take pos).map
                (fun v : Int => truncToward0 ((v : ℚ) * ((vd : ℚ) / (vp : ℚ))))
              ++ pl.deaths.values.drop pos⟩ },
    ?_, ?_, rfl, rfl, ?_, ?_⟩
  · unfold correct_late_reporting
    rw [hlk]
    simp only [hpos, hposPrev, hd', hprev', if_neg hvp]
  · rw [lookupP_insertP, if_pos rfl]
  · -- at and after the pivot date: unchanged
    intro e hde
    unfold TimeSeries.get TimeSeries.date_to_position
    simp only
    have hlen : ((pl.deaths.values.take pos).map
          (fun v : Int => truncToward0 ((v : ℚ) * ((vd : ℚ) / (vp : ℚ)))) ++
        pl.deaths.values.drop pos).length = pl.deaths.values.length := by
      simp only [List.length_append, List.length_map, List.length_take,
        List.length_drop]
      omega
    rw [hlen]
    by_cases hc : pl.deaths.start ≤ e ∧ e - pl.deaths.start < pl.deaths.values.length
    · rw [if_pos hc]
      simp only [Option.map_some', Option.some.injEq]
      have hge : pos ≤ e - pl.deaths.start := by
        rw [hposeq]
        omega
      have htklen : ((pl.deaths.values.take pos).map
          (fun v : Int => truncToward0 ((v : ℚ) * ((vd : ℚ) / (vp : ℚ))))).length = pos := by
        simp only [List.length_map, List.length_take]
        omega
      rw [List.getD_eq_getElem?_getD, List.getD_eq_getElem?_getD,
        List.getElem?_append_right (by rw [htklen]; exact hge), htklen,
        List.getElem?_drop]
      have hidx : pos + (e - pl.deaths.start - pos) = e - pl.deaths.start := by omega
      rw [hidx]
    · rw [if_neg hc]
      rfl
  · -- strictly before the pivot date: scaled and truncated
    intro e hed
    unfold TimeSeries.get TimeSeries.date_to_position
    simp only
    have hlen : ((pl.deaths.values.take pos).map
          (fun v : Int => truncToward0 ((v : ℚ) * ((vd : ℚ) / (vp : ℚ)))) ++
        pl.deaths.values.drop pos).length = pl.deaths.values.length := by
      simp only [List.length_append, List.length_map, List.length_take,
        List.length_drop]
      omega
    rw [hlen]
    by_cases hc : pl.deaths.start ≤ e ∧ e - pl.deaths.start < pl.deaths.values.length
    · rw [if_pos hc]
      simp only [Option.map_some', Option.some.injEq]
      have hlt : e - pl.deaths.start < pos := by
        rw [hposeq]
        omega
      have htklen : ((pl.deaths.values.take pos).map
          (fun v : Int => truncToward0 ((v : ℚ) * ((vd : ℚ) / (vp : ℚ))))).length = pos := by
        simp only [List.length_map, List.length_take]
        omega
      rw [List.getD_eq_getElem?_getD, List.getD_eq_getElem?_getD,
        List.getElem?_append_left (by rw [htklen]; exact hlt),
        List.getElem?_map, List.getElem?_take]
      rw [if_pos hlt]
      cases hge : pl.deaths.values[e - pl.deaths.start]? with
      | none =>
          exfalso
          rw [List.getElem?_eq_none_iff] at hge
          omega
      | some x => simp
    · rw [if_neg hc]
      rfl

/-- A concrete Hubei-like place: three days of data with a deaths jump at
day 1 (10 then 30). -/
def hubeiPlace : Place :=
  { confirmed := ⟨0, [5, 6, 7]⟩, deaths := ⟨0, [10, 30, 7]⟩,
    recovered := ⟨0, [1, 2, 3]⟩ }

/-- A one-place map around `hubeiPlace`. -/
def hubeiMap : Places := [(("China", "Hubei", ""), hubeiPlace)]

/-- Witness for C6 at the concrete map: the pivot is day 1 with ratio
30 / 10. -/
theorem late_reporting_rescaling_witness :
    lookupP hubeiMap ("China", "Hubei", "") = some hubeiPlace ∧
    hubeiPlace.deaths.get 1 = some 30 ∧
    hubeiPlace.deaths.get 0 = some 10 ∧
    (∃ m' pl', correct_late_reporting hubeiMap ("China", "Hubei", "") 1 = some m' ∧
      lookupP m' ("China", "Hubei", "") = some pl' ∧
      pl'.confirmed = hubeiPlace.confirmed ∧ pl'.recovered = hubeiPlace.recovered ∧
      (∀ e, 1 ≤ e → pl'.deaths.get e = hubeiPlace.deaths.get e) ∧
      (∀ e, e < 1 → pl'.deaths.get e
        = (hubeiPlace.deaths.get e).map
            (fun v : Int => truncToward0 ((v : ℚ) * (((30 : Int) : ℚ) / ((10 : Int) : ℚ)))))) :=
  ⟨rfl, rfl, rfl,
    late_reporting_rescaling hubeiMap ("China", "Hubei", "") 1 hubeiPlace 30 10
      rfl rfl rfl (by decide)⟩

/-- C10: the rescaling correction's scale factor is an unguarded division by
the previous day's deaths value.  For a place present in the map whose series
covers the pivot date and the day before it, the correction completes (yields
a map) exactly when the previous-day deaths value is nonzero; when that value
is zero the division has no error branch and the correction fails. -/
theorem late_reporting_division_guard (m : Places) (p : PlaceKey) (d : Nat)
    (pl : Place) (vd vp : Int)
    (hlk : lookupP m p = some pl)
    (hd : pl.deaths.get d = some vd)
    (hprev : pl.deaths.get (d - 1) = some vp) :
    (vp ≠ 0 → (correct_late_reporting m p d).isSome) ∧
    (vp = 0 → correct_late_reporting m p d = none) := by
  unfold TimeSeries.get at hd hprev
  cases hpos : pl.deaths.date_to_position d with
  | none => rw [hpos] at hd; cases hd
  | some pos =>
  cases hposPrev : pl.deaths.date_to_position (d - 1) with
  | none => rw [hposPrev] at hprev; cases hprev
  | some posPrev =>
  rw [hpos] at hd
  rw [hposPrev] at hprev
  have hd' : pl.deaths.values.getD pos 0 = vd := by simpa using hd
  have hprev' : pl.deaths.values.getD posPrev 0 = vp := by simpa using hprev
  constructor
  · intro hvp
    unfold correct_late_reporting
    rw [hlk]
    simp only [hpos, hposPrev, hd', hprev', if_neg hvp, Option.isSome_some]
  · intro hvp
    unfold correct_late_reporting
    rw [hlk]
    rw [hvp] at hprev'
    simp only [hpos, hposPrev, hprev', if_pos]

/-- A variant of the Hubei example whose previous-day deaths value is zero. -/
def hubeiZeroPlace : Place :=
  { confirmed := ⟨0, [5, 6, 7]⟩, deaths := ⟨0, [0, 30, 7]⟩,
    recovered := ⟨0, [1, 2, 3]⟩ }

/-- A one-place map around `hubeiZeroPlace`. -/
def hubeiZeroMap : Places := [(("China", "Hubei", ""), hubeiZeroPlace)]

/-- Witness for C10: with a nonzero previous-day value the correction
completes; with a zero previous-day value it fails. -/
theorem late_reporting_division_guard_witness :
    (correct_late_reporting hubeiMap ("China", "Hubei", "") 1).isSome ∧
    correct_late_reporting hubeiZeroMap ("China", "Hubei", "") 1 = none :=
  ⟨(late_reporting_division_guard hubeiMap ("China", "Hubei", "") 1 hubeiPlace 30 10
      rfl rfl rfl).1 (by decide),
   (late_reporting_division_guard hubeiZeroMap ("China", "Hubei", "") 1 hubeiZeroPlace 30 0
      rfl rfl rfl).2 rfl⟩

-- --------------------------------------------------------------------------
-- correct_misrecorded_place (src/import.py lines 276-289).

/-- Date-addressed read of one metric of a place, the right-hand side of one
of the six assignment statements; `none` models a missing place or an
out-of-range date. -/
def readSeries (m : Places) (k : PlaceKey) (sel : Place → TimeSeries) (d : Nat) :
    Option Int :=
  (lookupP m k).bind (fun pl => (sel pl).get d)

/-- Date-addressed write of one metric of a place, one assignment statement;
`none` models a missing place or an out-of-range date. -/
def writeSeries (m : Places) (k : PlaceKey) (sel : Place → TimeSeries)
    (upd : Place → TimeSeries → Place) (d : Nat) (v : Int) : Option Places :=
  (lookupP m k).bind
    (fun pl => ((sel pl).set d v).map (fun ts => insertP m k (upd pl ts)))

/-- Record update for the confirmed series. -/
def setConfirmed : Place → TimeSeries → Place := fun pl ts => { pl with confirmed := ts }

/-- Record update for the deaths series. -/
def setDeaths : Place → TimeSeries → Place := fun pl ts => { pl with deaths := ts }

/-- Record update for the recovered series. -/
def setRecovered : Place → TimeSeries → Place := fun pl ts => { pl with recovered := ts }

/-- `correct_misrecorded_place(d, correct_p, recorded_p)`: the six assignment
statements of the source in order — first the three
`correct.X[d] = recorded.X[d]` assignments, then the three
`recorded.X[d] = recorded.X[prev_d]` assignments, each reading from the map
as updated so far (Python reference semantics). -/
def correct_misrecorded_place (m : Places) (d : Nat) (correct_p recorded_p : PlaceKey) :
    Option Places :=
  (readSeries m recorded_p Place.confirmed d).bind (fun v1 =>
  (writeSeries m correct_p Place.confirmed setConfirmed d v1).bind (fun m1 =>
  (readSeries m1 recorded_p Place.deaths d).bind (fun v2 =>
  (writeSeries m1 correct_p Place.deaths setDeaths d v2).bind (fun m2 =>
  (readSeries m2 recorded_p Place.recovered d).bind (fun v3 =>
  (writeSeries m2 correct_p Place.recovered setRecovered d v3).bind (fun m3 =>
  (readSeries m3 recorded_p Place.confirmed (d - 1)).bind (fun v4 =>
  (writeSeries m3 recorded_p Place.confirmed setConfirmed d v4).bind (fun m4 =>
  (readSeries m4 recorded_p Place.deaths (d - 1)).bind (fun v5 =>
  (writeSeries m4 recorded_p Place.deaths setDeaths d v5).bind (fun m5 =>
  (readSeries m5 recorded_p Place.recovered (d - 1)).bind (fun v6 =>
  writeSeries m5 recorded_p Place.recovered setRecovered d v6)))))))))))

theorem TimeSeries.get_set {ts ts' : TimeSeries} {d : Nat} {v : Int}
    (h : ts.set d v = some ts') (e : Nat) :
    ts'.get e = if e = d then some v else ts.get e := by
  unfold TimeSeries.set at h
  cases hpos : ts.date_to_position d with
  | none => rw [hpos] at h; cases h
  | some i =>
      rw [hpos] at h
      simp only [Option.map_some', Option.some.injEq] at h
      obtain ⟨hsd, hlend, hieq⟩ := date_to_position_some hpos
      subst h
      unfold TimeSeries.get TimeSeries.date_to_position
      simp only [List.length_set]
      by_cases he : e = d
      · subst he
        rw [if_pos rfl, if_pos ⟨hsd, hlend⟩]
        simp only [Option.map_some', Option.some.injEq]
        rw [List.getD_eq_getElem?_getD, ← hieq, List.getElem?_set_self
          (by rw [hieq]; exact hlend)]
        rfl
      · rw [if_neg he]
        by_cases hc : ts.start ≤ e ∧ e - ts.start < ts.values.length
        · rw [if_pos hc]
          simp only [Option.map_some', Option.some.injEq]
          rw [List.getD_eq_getElem?_getD, List.getD_eq_getElem?_getD,
            List.getElem?_set_ne (by omega)]
        · rw [if_neg hc]
          rfl

theorem readSeries_writeSeries_same {m m' : Places} {k : PlaceKey}
    {sel : Place → TimeSeries} {upd : Place → TimeSeries → Place} {d : Nat} {v : Int}
    (hupd : ∀ pl ts, sel (upd pl ts) = ts)
    (hw : writeSeries m k sel upd d v = some m') (e : Nat) :
    readSeries m' k sel e = if e = d then some v else readSeries m k sel e := by
  unfold writeSeries at hw
  cases hlk : lookupP m k with
  | none => rw [hlk] at hw; cases hw
  | some pl =>
      rw [hlk] at hw
      simp only [Option.some_bind] at hw
      cases hset : (sel pl).set d v with
      | none => rw [hset] at hw; cases hw
      | some ts =>
          rw [hset] at hw
          simp only [Option.map_some', Option.some.injEq] at hw
          subst hw
          unfold readSeries
          rw [lookupP_insertP, if_pos rfl]
          simp only [Option.some_bind]
          rw [hupd pl ts, TimeSeries.get_set hset e, hlk]
          simp only [Option.some_bind]

theorem readSeries_writeSeries_other_sel {m m' : Places} {k : PlaceKey}
    {sel sel2 : Place → TimeSeries} {upd : Place → TimeSeries → Place} {d : Nat} {v : Int}
    (hupd : ∀ pl ts, sel2 (upd pl ts) = sel2 pl)
    (hw : writeSeries m k sel upd d v = some m') (e : Nat) :
    readSeries m' k sel2 e = readSeries m k sel2 e := by
  unfold writeSeries at hw
  cases hlk : lookupP m k with
  | none => rw [hlk] at hw; cases hw
  | some pl =>
      rw [hlk] at hw
      simp only [Option.some_bind] at hw
      cases hset : (sel pl).set d v with
      | none => rw [hset] at hw; cases hw
      | some ts =>
          rw [hset] at hw
          simp only [Option.map_some', Option.some.injEq] at hw
          subst hw
          unfold readSeries
          rw [lookupP_insertP, if_pos rfl]
          simp only [Option.some_bind]
          rw [hupd pl ts, hlk]
          simp only [Option.some_bind]

theorem readSeries_writeSeries_other_key {m m' : Places} {k k2 : PlaceKey}
    {sel : Place → TimeSeries} {upd : Place → TimeSeries → Place} {d : Nat} {v : Int}
    (hk : k2 ≠ k)
    (hw : writeSeries m k sel upd d v = some m') (sel2 : Place → TimeSeries) (e : Nat) :
    readSeries m' k2 sel2 e = readSeries m k2 sel2 e := by
  unfold writeSeries at hw
  cases hlk : lookupP m k with
  | none => rw [hlk] at hw; cases hw
  | some pl =>
      rw [hlk] at hw
      simp only [Option.some_bind] at hw
      cases hset : (sel pl).set d v with
      | none => rw [hset] at hw; cases hw
      | some ts =>
          rw [hset] at hw
          simp only [Option.map_some', Option.some.injEq] at hw
          subst hw
          unfold readSeries
          rw [lookupP_insertP, if_neg (fun he => hk he.symm)]

theorem confirmed_setConfirmed : ∀ (pl : Place) (ts : TimeSeries),
    Place.confirmed (setConfirmed pl ts) = ts := fun _ _ => rfl

theorem deaths_setDeaths : ∀ (pl : Place) (ts : TimeSeries),
    Place.deaths (setDeaths pl ts) = ts := fun _ _ => rfl

theorem recovered_setRecovered : ∀ (pl : Place) (ts : TimeSeries),
    Place.recovered (setRecovered pl ts) = ts := fun _ _ => rfl

theorem confirmed_setDeaths : ∀ (pl : Place) (ts : TimeSeries),
    Place.confirmed (setDeaths pl ts) = Place.confirmed pl := fun _ _ => rfl

theorem confirmed_setRecovered : ∀ (pl : Place) (ts : TimeSeries),
    Place.confirmed (setRecovered pl ts) = Place.confirmed pl := fun _ _ => rfl

theorem deaths_setConfirmed : ∀ (pl : Place) (ts : TimeSeries),
    Place.deaths (setConfirmed pl ts) = Place.deaths pl := fun _ _ => rfl

theorem deaths_setRecovered : ∀ (pl : Place) (ts : TimeSeries),
    Place.deaths (setRecovered pl ts) = Place.deaths pl := fun _ _ => rfl

theorem recovered_setConfirmed : ∀ (pl : Place) (ts : TimeSeries),
    Place.recovered (setConfirmed pl ts) = Place.recovered pl := fun _ _ => rfl

theorem recovered_setDeaths : ∀ (pl : Place) (ts : TimeSeries),
    Place.recovered (setDeaths pl ts) = Place.recovered pl := fun _ _ => rfl

/-- C7: after the misattribution fix at date `d` succeeds, for each of the
confirmed/deaths/recovered series the recorded (wrongly-attributed) place's
value at `d` equals its own pre-fix value at `d` minus one day, the correct
place's value at `d` equals the value the recorded place held at `d` before
the fix, and the values of both places at every other date are unchanged. -/
theorem misrecorded_place_fix (m md : Places) (d : Nat) (cp rp : PlaceKey)
    (hne : cp ≠ rp)
    (hres : correct_misrecorded_place m d cp rp = some md) :
    (readSeries md rp Place.confirmed d = readSeries m rp Place.confirmed (d - 1) ∧
     readSeries md rp Place.deaths d = readSeries m rp Place.deaths (d - 1) ∧
     readSeries md rp Place.recovered d = readSeries m rp Place.recovered (d - 1)) ∧
    (readSeries md cp Place.confirmed d = readSeries m rp Place.confirmed d ∧
     readSeries md cp Place.deaths d = readSeries m rp Place.deaths d ∧
     readSeries md cp Place.recovered d = readSeries m rp Place.recovered d) ∧
    (∀ e, e ≠ d →
      (readSeries md cp Place.confirmed e = readSeries m cp Place.confirmed e ∧
       readSeries md cp Place.deaths e = readSeries m cp Place.deaths e ∧
       readSeries md cp Place.recovered e = readSeries m cp Place.recovered e) ∧
      (readSeries md rp Place.confirmed e = readSeries m rp Place.confirmed e ∧
       readSeries md rp Place.deaths e = readSeries m rp Place.deaths e ∧
       readSeries md rp Place.recovered e = readSeries m rp Place.recovered e)) := by
  unfold correct_misrecorded_place at hres
  rw [Option.bind_eq_some] at hres
  obtain ⟨v1, hv1, hres⟩ := hres
  rw [Option.bind_eq_some] at hres
  obtain ⟨m1, hm1, hres⟩ := hres
  rw [Option.bind_eq_some] at hres
  obtain ⟨v2, hv2, hres⟩ := hres
  rw [Option.bind_eq_some] at hres
  obtain ⟨m2, hm2, hres⟩ := hres
  rw [Option.bind_eq_some] at hres
  obtain ⟨v3, hv3, hres⟩ := hres
  rw [Option.bind_eq_some] at hres
  obtain ⟨m3, hm3, hres⟩ := hres
  rw [Option.bind_eq_some] at hres
  obtain ⟨v4, hv4, hres⟩ := hres
  rw [Option.bind_eq_some] at hres
  obtain ⟨m4, hm4, hres⟩ := hres
  rw [Option.bind_eq_some] at hres
  obtain ⟨v5, hv5, hres⟩ := hres
  rw [Option.bind_eq_some] at hres
  obtain ⟨m5, hm5, hres⟩ := hres
  rw [Option.bind_eq_some] at hres
  obtain ⟨v6, hv6, hm6⟩ := hres
  have hrc : rp ≠ cp := fun he => hne he.symm
  refine ⟨⟨?_, ?_, ?_⟩, ⟨?_, ?_, ?_⟩, ?_⟩
  · -- recorded place, confirmed, at d: carried forward from d-1
    rw [readSeries_writeSeries_other_sel confirmed_setRecovered hm6 d,
      readSeries_writeSeries_other_sel confirmed_setDeaths hm5 d,
      readSeries_writeSeries_same confirmed_setConfirmed hm4 d, if_pos rfl]
    rw [readSeries_writeSeries_other_key hrc hm3 Place.confirmed (d - 1),
      readSeries_writeSeries_other_key hrc hm2 Place.confirmed (d - 1),
      readSeries_writeSeries_other_key hrc hm1 Place.confirmed (d - 1)]
      at hv4
    exact hv4.symm
  · -- recorded place, deaths, at d
    rw [readSeries_writeSeries_other_sel deaths_setRecovered hm6 d,
      readSeries_writeSeries_same deaths_setDeaths hm5 d, if_pos rfl]
    rw [readSeries_writeSeries_other_sel deaths_setConfirmed hm4 (d - 1),
      readSeries_writeSeries_other_key hrc hm3 Place.deaths (d - 1),
      readSeries_writeSeries_other_key hrc hm2 Place.deaths (d - 1),
      readSeries_writeSeries_other_key hrc hm1 Place.deaths (d - 1)]
      at hv5
    exact hv5.symm
  · -- recorded place, recovered, at d
    rw [readSeries_writeSeries_same recovered_setRecovered hm6 d, if_pos rfl]
    rw [readSeries_writeSeries_other_sel recovered_setDeaths hm5 (d - 1),
      readSeries_writeSeries_other_sel recovered_setConfirmed hm4 (d - 1),
      readSeries_writeSeries_other_key hrc hm3 Place.recovered (d - 1),
      readSeries_writeSeries_other_key hrc hm2 Place.recovered (d - 1),
      readSeries_writeSeries_other_key hrc hm1 Place.recovered (d - 1)]
      at hv6
    exact hv6.symm
  · -- correct place, confirmed, at d: the recorded place's pre-fix value
    rw [readSeries_writeSeries_other_key hne hm6 Place.confirmed d,
      readSeries_writeSeries_other_key hne hm5 Place.confirmed d,
      readSeries_writeSeries_other_key hne hm4 Place.confirmed d,
      readSeries_writeSeries_other_sel confirmed_setRecovered hm3 d,
      readSeries_writeSeries_other_sel confirmed_setDeaths hm2 d,
      readSeries_writeSeries_same confirmed_setConfirmed hm1 d, if_pos rfl]
    exact hv1.symm
  · -- correct place, deaths, at d
    rw [readSeries_writeSeries_other_key hne hm6 Place.deaths d,
      readSeries_writeSeries_other_key hne hm5 Place.deaths d,
      readSeries_writeSeries_other_key hne hm4 Place.deaths d,
      readSeries_writeSeries_other_sel deaths_setRecovered hm3 d,
      readSeries_writeSeries_same deaths_setDeaths hm2 d, if_pos rfl]
    rw [readSeries_writeSeries_other_key hrc hm1 Place.deaths d] at hv2
    exact hv2.symm
  · -- correct place, recovered, at d
    rw [readSeries_writeSeries_other_key hne hm6 Place.recovered d,
      readSeries_writeSeries_other_key hne hm5 Place.recovered d,
      readSeries_writeSeries_other_key hne hm4 Place.recovered d,
      readSeries_writeSeries_same recovered_setRecovered hm3 d, if_pos rfl]
    rw [readSeries_writeSeries_other_key hrc hm2 Place.recovered d,
      readSeries_writeSeries_other_key hrc hm1 Place.recovered d] at hv3
    exact hv3.symm
  · -- all other dates of both places: unchanged
    intro e he
    refine ⟨⟨?_, ?_, ?_⟩, ?_, ?_, ?_⟩
    · rw [readSeries_writeSeries_other_key hne hm6 Place.confirmed e,
        readSeries_writeSeries_other_key hne hm5 Place.confirmed e,
        readSeries_writeSeries_other_key hne hm4 Place.confirmed e,
        readSeries_writeSeries_other_sel confirmed_setRecovered hm3 e,
        readSeries_writeSeries_other_sel confirmed_setDeaths hm2 e,
        readSeries_writeSeries_same confirmed_setConfirmed hm1 e, if_neg he]
    · rw [readSeries_writeSeries_other_key hne hm6 Place.deaths e,
        readSeries_writeSeries_other_key hne hm5 Place.deaths e,
        readSeries_writeSeries_other_key hne hm4 Place.deaths e,
        readSeries_writeSeries_other_sel deaths_setRecovered hm3 e,
        readSeries_writeSeries_same deaths_setDeaths hm2 e, if_neg he,
        readSeries_writeSeries_other_sel deaths_setConfirmed hm1 e]
    · rw [readSeries_writeSeries_other_key hne hm6 Place.recovered e,
        readSeries_writeSeries_other_key hne hm5 Place.recovered e,
        readSeries_writeSeries_other_key hne hm4 Place.recovered e,
        readSeries_writeSeries_same recovered_setRecovered hm3 e, if_neg he,
        readSeries_writeSeries_other_sel recovered_setDeaths hm2 e,
        readSeries_writeSeries_other_sel recovered_setConfirmed hm1 e]
    · rw [readSeries_writeSeries_other_sel confirmed_setRecovered hm6 e,
        readSeries_writeSeries_other_sel confirmed_setDeaths hm5 e,
        readSeries_writeSeries_same confirmed_setConfirmed hm4 e, if_neg he,
        readSeries_writeSeries_other_key hrc hm3 Place.confirmed e,
        readSeries_writeSeries_other_key hrc hm2 Place.confirmed e,
        readSeries_writeSeries_other_key hrc hm1 Place.confirmed e]
    · rw [readSeries_writeSeries_other_sel deaths_setRecovered hm6 e,
        readSeries_writeSeries_same deaths_setDeaths hm5 e, if_neg he,
        readSeries_writeSeries_other_sel deaths_setConfirmed hm4 e,
        readSeries_writeSeries_other_key hrc hm3 Place.deaths e,
        readSeries_writeSeries_other_key hrc hm2 Place.deaths e,
        readSeries_writeSeries_other_key hrc hm1 Place.deaths e]
    · rw [readSeries_writeSeries_same recovered_setRecovered hm6 e, if_neg he,
        readSeries_writeSeries_other_sel recovered_setDeaths hm5 e,
        readSeries_writeSeries_other_sel recovered_setConfirmed hm4 e,
        readSeries_writeSeries_other_key hrc hm3 Place.recovered e,
        readSeries_writeSeries_other_key hrc hm2 Place.recovered e,
        readSeries_writeSeries_other_key hrc hm1 Place.recovered e]

/-- A two-place map for the misattribution fix: France and French Polynesia
with two days of data each. -/
def misrecordedMap : Places :=
  [(("France", "", ""),
    { confirmed := ⟨0, [1, 2]⟩, deaths := ⟨0, [0, 0]⟩, recovered := ⟨0, [0, 1]⟩ }),
   (("French Polynesia", "", ""),
    { confirmed := ⟨0, [3, 40]⟩, deaths := ⟨0, [1, 5]⟩, recovered := ⟨0, [2, 9]⟩ })]

/-- The map produced by running the misattribution fix on `misrecordedMap`
at day 1. -/
def misrecordedFixed : Places :=
  (correct_misrecorded_place misrecordedMap 1 ("France", "", "")
    ("French Polynesia", "", "")).getD []

/-- Witness for C7 at the concrete map: after the fix, French Polynesia's
confirmed value at day 1 equals its own day-0 value, and France's confirmed
value at day 1 equals what French Polynesia held at day 1 before the fix. -/
theorem misrecorded_place_fix_witness :
    ((("France", "", "") : PlaceKey) ≠ ("French Polynesia", "", "")) ∧
    readSeries misrecordedFixed ("French Polynesia", "", "") Place.confirmed 1
      = readSeries misrecordedMap ("French Polynesia", "", "") Place.confirmed 0 ∧
    readSeries misrecordedFixed ("France", "", "") Place.confirmed 1
      = readSeries misrecordedMap ("French Polynesia", "", "") Place.confirmed 1 := by
  have h := misrecorded_place_fix misrecordedMap misrecordedFixed 1
    ("France", "", "") ("French Polynesia", "", "") (by decide) rfl
  exact ⟨by decide, h.1.1, h.2.1.1⟩

-- --------------------------------------------------------------------------
-- fetch_raw_jhu_data error handling (src/import.py lines 68-83).

/-- The outcome of one HTTP fetch, as seen by the error handler:
`raise_for_status` either passes (the body text) or raises an HTTPError
carrying the status code and reason. -/
inductive FetchResult where
  | ok (text : String)
  | httpError (code : Nat) (reason : String)
deriving DecidableEq, Repr

/-- A process abort: the exit status passed to `sys.exit` and the diagnostic
lines printed before it. -/
structure Abort where
  exitCode : Nat
  messages : List String
deriving DecidableEq, Repr

/-- The per-date body of `fetch_raw_jhu_data`: on an HTTPError it prints the
unreachable URL, the status code and reason, additionally (for a 404) that
JHU has not yet published the data for the date, and exits with status 1. -/
def handle_jhu_fetch (url dateIso : String) (r : FetchResult) : Except Abort String :=
  match r with
  | FetchResult.ok t => Except.ok t
  | FetchResult.httpError code reason =>
      Except.error
        { exitCode := 1
          messages :=
            ["Couldn't fetch: " ++ url,
             "The fetch failed with code " ++ toString code ++ ": " ++ reason] ++
            (if code = 404 then
              ["It seems JHU has not yet published the data for " ++ dateIso ++ "."]
            else []) }

/-- C8: an HTTP error while fetching a daily case-report file aborts the
process with exit status 1 after printing diagnostics that name the URL and
the status code; exactly when the status is 404 an additional line diagnoses
that the data has not yet been published for that date. -/
theorem fetch_failure_aborts (url dateIso reason : String) (code : Nat) :
    ∃ a : Abort,
      handle_jhu_fetch url dateIso (FetchResult.httpError code reason) = Except.error a ∧
      a.exitCode = 1 ∧
      ("Couldn't fetch: " ++ url) ∈ a.messages ∧
      ("The fetch failed with code " ++ toString code ++ ": " ++ reason) ∈ a.messages ∧
      (code = 404 → a.messages =
        ["Couldn't fetch: " ++ url,
         "The fetch failed with code " ++ toString code ++ ": " ++ reason,
         "It seems JHU has not yet published the data for " ++ dateIso ++ "."]) ∧
      (code ≠ 404 → a.messages =
        ["Couldn't fetch: " ++ url,
         "The fetch failed with code " ++ toString code ++ ": " ++ reason]) := by
  refine ⟨_, rfl, rfl, ?_, ?_, ?_, ?_⟩
  · simp [handle_jhu_fetch]
  · simp [handle_jhu_fetch]
  · intro h
    simp [handle_jhu_fetch, h]
  · intro h
    simp [handle_jhu_fetch, h]

/-- Witness for C8 at a concrete URL and date, for a 404. -/
theorem fetch_failure_aborts_witness :
    ∃ a : Abort,
      handle_jhu_fetch "https://example.org/03-23-2020.csv" "2020-03-23"
          (FetchResult.httpError 404 "Not Found") = Except.error a ∧
      a.exitCode = 1 ∧
      ("Couldn't fetch: " ++ "https://example.org/03-23-2020.csv") ∈ a.messages ∧
      ("The fetch failed with code " ++ toString 404 ++ ": " ++ "Not Found") ∈ a.messages ∧
      ((404 : Nat) = 404 → a.messages =
        ["Couldn't fetch: " ++ "https://example.org/03-23-2020.csv",
         "The fetch failed with code " ++ toString 404 ++ ": " ++ "Not Found",
         "It seems JHU has not yet published the data for " ++ "2020-03-23" ++ "."]) ∧
      ((404 : Nat) ≠ 404 → a.messages =
        ["Couldn't fetch: " ++ "https://example.org/03-23-2020.csv",
         "The fetch failed with code " ++ toString 404 ++ ": " ++ "Not Found"]) :=
  fetch_failure_aborts "https://example.org/03-23-2020.csv" "2020-03-23" "Not Found" 404

-- --------------------------------------------------------------------------
-- CSV output (src/import.py lines 351-372).

/-- A calendar date as the CSV formatter needs it. -/
structure CalDate where
  month : Nat
  day : Nat
  year : Nat
deriving DecidableEq, Repr

/-- Two-digit zero padding, as strftime emits for %m, %d and %y. -/
def pad2 (n : Nat) : String := if n < 10 then "0" ++ toString n else toString n

/-- `d.strftime("%m/%d/%y")`. -/
def formatMMDDYY (d : CalDate) : String :=
  pad2 d.month ++ "/" ++ pad2 d.day ++ "/" ++ pad2 (d.year % 100)

/-- The header row written to each of the three CSV files. -/
def csvHeader (dates : List CalDate) : List String :=
  ["Province/State", "Country/Region", "Lat", "Long"] ++ dates.map formatMMDDYY

/-- Python's `sum()` over a value list. -/
def sumInt (l : List Int) : Int := l.foldl (· + ·) 0

/-- The `row_start` of the writer loop: province, country, then latitude and
longitude with a falsy value (absent or empty) replaced by the empty
string. -/
def rowStart (k : PlaceKey) (pl : Place) : List String :=
  [k.2.1, k.1, pl.latitude.getD "", pl.longitude.getD ""]

/-- The data rows of one output file: the writer loop over the sorted keys,
skipping district-level keys and places whose confirmed series sums to zero
(the same confirmed-based test gates all three files), then emitting
`row_start` followed by the selected series' values. -/
def csvBody (sel : Place → TimeSeries) (m : Places) : List (List String) :=
  (sortKeys m).filterMap (fun p =>
    match lookupP m p with
    | none => none
    | some pl =>
        if p.2.2 ≠ "" then none
        else if sumInt pl.confirmed.values = 0 then none
        else some (rowStart p pl ++ (sel pl).values.map toString))

/-- One whole output file: the header row, then the data rows. -/
def output_csv (sel : Place → TimeSeries) (dates : List CalDate) (m : Places) :
    List (List String) :=
  csvHeader dates :: csvBody sel m

/-- The qualification test of the writer loop, as a predicate on keys: the
key resolves, its district is empty, and its confirmed series does not sum to
zero. -/
def csvQualifies (m : Places) (p : PlaceKey) : Bool :=
  match lookupP m p with
  | none => false
  | some pl => decide (p.2.2 = "") && !decide (sumInt pl.confirmed.values = 0)

/-- The row emitted for a qualifying key. -/
def placeRow (sel : Place → TimeSeries) (m : Places) (p : PlaceKey) : List String :=
  match lookupP m p with
  | none => []
  | some pl => rowStart p pl ++ (sel pl).values.map toString

theorem csvBody_eq_filter_map (sel : Place → TimeSeries) (m : Places) :
    csvBody sel m = ((sortKeys m).filter (csvQualifies m)).map (placeRow sel m) := by
  unfold csvBody
  have main : ∀ ks : List PlaceKey,
      ks.filterMap (fun p =>
        match lookupP m p with
        | none => none
        | some pl =>
            if p.2.2 ≠ "" then none
            else if sumInt pl.confirmed.values = 0 then none
            else some (rowStart p pl ++ (sel pl).values.map toString))
        = (ks.filter (csvQualifies m)).map (placeRow sel m) := by
    intro ks
    induction ks with
    | nil => rfl
    | cons p ks ih =>
        rw [List.filterMap_cons, List.filter_cons]
        cases hlk : lookupP m p with
        | none =>
            have hq : csvQualifies m p = false := by
              unfold csvQualifies
              rw [hlk]
            simp only [hlk, hq, Bool.false_eq_true, if_false, ih]
        | some pl =>
            by_cases hdist : p.2.2 = ""
            · by_cases hsum : sumInt pl.confirmed.values = 0
              · have hq : csvQualifies m p = false := by
                  unfold csvQualifies
                  rw [hlk]
                  simp [hsum]
                simp only [hlk, hq, Bool.false_eq_true, if_false, hdist, hsum, ih]
                simp [hdist, hsum]
              · have hq : csvQualifies m p = true := by
                  unfold csvQualifies
                  rw [hlk]
                  simp [hdist, hsum]
                have hrow : placeRow sel m p
                    = rowStart p pl ++ (sel pl).values.map toString := by
                  unfold placeRow
                  rw [hlk]
                simp only [hlk, hq, if_true, List.map_cons, hrow, ih]
                simp [hdist, hsum]
            · have hq : csvQualifies m p = false := by
                unfold csvQualifies
                rw [hlk]
                simp [hdist]
              simp only [hlk, hq, Bool.false_eq_true, if_false, ih]
              simp [hdist]
  exact main (sortKeys m)

/-- C9: each emitted CSV file consists of the header row Province/State,
Country/Region, Lat, Long followed by one column per date formatted
MM/DD/YY, and then exactly one data row per place whose district is empty
and whose confirmed series does not sum to zero, in sorted key order —
places with a non-empty district or a confirmed series summing to zero are
skipped.  The statement is uniform in the series selector, so it covers all
three files (confirmed, deaths, recovered). -/
theorem csv_output_layout (sel : Place → TimeSeries) (dates : List CalDate)
    (m : Places) (hnd : (keysP m).Nodup) :
    (output_csv sel dates m).head?
      = some (["Province/State", "Country/Region", "Lat", "Long"]
          ++ dates.map formatMMDDYY) ∧
    (output_csv sel dates m).tail
      = ((sortKeys m).filter (csvQualifies m)).map (placeRow sel m) ∧
    ((sortKeys m).filter (csvQualifies m)).Nodup ∧
    (∀ k pl, lookupP m k = some pl →
      (k ∈ (sortKeys m).filter (csvQualifies m)
        ↔ (k.2.2 = "" ∧ sumInt pl.confirmed.values ≠ 0))) := by
  have hperm : (sortKeys m).Perm (keysP m) :=
    List.perm_insertionSort (fun a b => keyLe a b = true) (keysP m)
  refine ⟨rfl, csvBody_eq_filter_map sel m, ?_, ?_⟩
  · exact (hperm.symm.nodup hnd).filter _
  · intro k pl hlk
    have hq : csvQualifies m k
        = (decide (k.2.2 = "") && !decide (sumInt pl.confirmed.values = 0)) := by
      unfold csvQualifies
      rw [hlk]
    have hmemk : k ∈ sortKeys m :=
      hperm.mem_iff.mpr (lookupP_isSome_iff_mem.mp (by rw [hlk]; rfl))
    rw [List.mem_filter, hq]
    constructor
    · intro h
      have := h.2
      simp only [Bool.and_eq_true, Bool.not_eq_true', decide_eq_true_eq,
        decide_eq_false_iff_not] at this
      exact ⟨this.1, this.2⟩
    · intro h
      exact ⟨hmemk, by simp [h.1, h.2]⟩

/-- A country-level place with data, for the CSV example. -/
def austriaPlace : Place :=
  { latitude := some "47.5", longitude := some "14.6",
    confirmed := ⟨0, [1, 2]⟩, deaths := ⟨0, [0, 0]⟩, recovered := ⟨0, [0, 1]⟩ }

/-- A CSV example map: one emittable country-level place, one district-level
place (skipped), and one all-zero place (skipped). -/
def csvExampleMap : Places :=
  [(("Austria", "", ""), austriaPlace),
   (("Austria", "Vienna", "X"),
    { confirmed := ⟨0, [5, 5]⟩, deaths := ⟨0, [1, 1]⟩, recovered := ⟨0, [0, 0]⟩ }),
   (("Belgium", "", ""),
    { confirmed := ⟨0, [0, 0]⟩, deaths := ⟨0, [0, 0]⟩, recovered := ⟨0, [0, 0]⟩ })]

/-- Two dates for the CSV example. -/
def csvDatesEx : List CalDate := [⟨3, 1, 2020⟩, ⟨3, 2, 2020⟩]

/-- Witness for C9 at the concrete map and date range. -/
theorem csv_output_layout_witness :
    (keysP csvExampleMap).Nodup ∧
    (output_csv Place.confirmed csvDatesEx csvExampleMap).head?
      = some (["Province/State", "Country/Region", "Lat", "Long"]
          ++ csvDatesEx.map formatMMDDYY) ∧
    (("Austria", "", "") ∈ (sortKeys csvExampleMap).filter (csvQualifies csvExampleMap)
      ↔ ((("Austria", "", "") : PlaceKey).2.2 = ""
          ∧ sumInt austriaPlace.confirmed.values ≠ 0)) := by
  have h := csv_output_layout Place.confirmed csvDatesEx csvExampleMap (by decide)
  exact ⟨by decide, h.1, h.2.2.2 ("Austria", "", "") austriaPlace rfl⟩

end C19
